import Mathlib

/-!
Shallow embedding of the metadata-consolidation and chunk-serving engine of
xpublish (`xpublish/utils/zarr.py`), together with theorems settling the
specification claims about it.

Python dictionaries are modelled as insertion-ordered association lists,
Python runtime values as the inductive `PyVal`, raised exceptions as
`Except String`.  Functions of `zarr.py` keep their source names.
-/

namespace Xpublish

/-! ### Python dict primitives (insertion-ordered association lists) -/

/-- Python `d[k] = v`: replace the value at the first occurrence of `k`,
else append `(k, v)` at the end (dict insertion order). -/
def dsetItem : List (String × α) → String → α → List (String × α)
  | [], k, v => [(k, v)]
  | (k₁, v₁) :: rest, k, v =>
    if k₁ = k then (k, v) :: rest else (k₁, v₁) :: dsetItem rest k v

/-- Python `d.get(k)` / `d[k]` lookup (first occurrence). -/
def dget? : List (String × α) → String → Option α
  | [], _ => none
  | (k₁, v₁) :: rest, k => if k₁ = k then some v₁ else dget? rest k

/-- Python `d.pop(k, None)`: the popped value (if any) and the remaining dict. -/
def dpop : List (String × α) → String → Option α × List (String × α)
  | [], _ => (none, [])
  | (k₁, v₁) :: rest, k =>
    if k₁ = k then (some v₁, rest)
    else
      let r := dpop rest k
      (r.1, (k₁, v₁) :: r.2)

/-- The keys of a dict. -/
def dkeys (d : List (String × α)) : List String := d.map Prod.fst

/-! ### Python values -/

/-- A floating-point value as the fill-value encoder distinguishes them:
NaN, the two infinities, or a finite value (modelled as a rational). -/
inductive PFloat where
  | nan
  | pinf
  | ninf
  | fin (q : Rat)
deriving DecidableEq

/-- Python/numpy runtime values crossing the metadata encoder. -/
inductive PyVal where
  | pnone
  | pint (n : Int)
  | pbool (b : Bool)
  | pstr (s : String)
  | pfloat (x : PFloat)
  | pbytes (bs : List Nat)
  | pcomplex (re im : PFloat)
  /-- a numpy `datetime64`/`timedelta64` value; `.view(i8)` yields `n`. -/
  | pdatetime (n : Int)
  | plist (xs : List PyVal)
  | ptuple (xs : List PyVal)
  /-- a numpy `ndarray` attribute value; `.tolist()` yields the element list. -/
  | ndarray (xs : List PyVal)
  /-- a numpy scalar (`np.generic`); `.item()` unwraps it. -/
  | npgeneric (v : PyVal)

/-- A numpy dtype as the encoder inspects it: its `kind` character,
its `str` descriptor, and the `hasobject` flag. -/
structure Dtype where
  kind : Char
  str : String
  hasobject : Bool
deriving DecidableEq

/-! ### base64 (Python `base64.standard_b64encode` on a byte string) -/

def b64alphabet : List Char :=
  "ABCDEFGHIJKLMNOPQRSTUVWXYZabcdefghijklmnopqrstuvwxyz0123456789+/".data

def b64char (n : Nat) : Char := b64alphabet.getD n 'A'

def base64encode : List Nat → String
  | [] => ""
  | [a] =>
    let n := a % 256 * 16
    String.mk [b64char (n / 64 % 64), b64char (n % 64)] ++ "=="
  | [a, b] =>
    let n := (a % 256 * 256 + b % 256) * 4
    String.mk [b64char (n / 4096 % 64), b64char (n / 64 % 64), b64char (n % 64)] ++ "="
  | a :: b :: c :: rest =>
    let n := a % 256 * 65536 + b % 256 * 256 + c % 256
    String.mk [b64char (n / 262144 % 64), b64char (n / 4096 % 64), b64char (n / 64 % 64),
      b64char (n % 64)] ++ base64encode rest

/-! ### Python conversions used by `encode_fill_value` -/

/-- Python `int(v)` (truncation toward zero for floats), on the value shapes
a fill value can take; anything else is a `TypeError`. -/
def pyInt : PyVal → Except String Int
  | .pint n => .ok n
  | .pbool b => .ok (if b then 1 else 0)
  | .pfloat (.fin q) => .ok (q.num.tdiv (q.den : Int))
  | .pfloat _ => .error "OverflowError: cannot convert float infinity or NaN to integer"
  | _ => .error "TypeError: int() argument"

/-- Python `bool(v)` truthiness on the value shapes a fill value can take. -/
def pyBool : PyVal → Except String Bool
  | .pnone => .ok false
  | .pint n => .ok (n != 0)
  | .pbool b => .ok b
  | .pstr s => .ok (s != "")
  | .pfloat (.fin q) => .ok (q != 0)
  | .pfloat _ => .ok true
  | .pbytes bs => .ok (!bs.isEmpty)
  | .plist xs => .ok (!xs.isEmpty)
  | .ptuple xs => .ok (!xs.isEmpty)
  | _ => .error "TypeError: bool()"

/-- The float arm of `encode_fill_value` (`np.isnan` / `np.isposinf` /
`np.isneginf` dispatch, else `float(v)`), shared with the complex arm which
re-applies the encoder to the real and imaginary parts at a float dtype. -/
def encodeFloatFill (x : PFloat) : PyVal :=
  match x with
  | .nan => .pstr "NaN"
  | .pinf => .pstr "Infinity"
  | .ninf => .pstr "-Infinity"
  | .fin q => .pfloat (.fin q)

/-- The float arm applied to a raw value: non-float numbers are neither NaN
nor infinite, so they fall through to `float(v)`. -/
def encodeFloatBranch : PyVal → Except String PyVal
  | .pfloat x => .ok (encodeFloatFill x)
  | .pint n => .ok (.pfloat (.fin (n : Rat)))
  | .pbool b => .ok (.pfloat (.fin (if b then 1 else 0)))
  | _ => .error "TypeError: float() argument"

/-- An object codec, needed only for object ('V' with `hasobject`) dtypes. -/
structure ObjectCodec where
  enc : PyVal → List Nat

/-- `encode_fill_value` from `xpublish/utils/zarr.py` (lines 308-347):
kind dispatch producing a wire-safe fill value.  Exceptions raised by the
Python code are modelled as `Except.error`. -/
def encode_fill_value (v : PyVal) (dtype : Dtype) (objectCodec : Option ObjectCodec) :
    Except String PyVal :=
  match v with
  | .pnone => .ok .pnone
  | v =>
  if dtype.kind = 'V' ∧ dtype.hasobject then
    match objectCodec with
    | none => .error "missing object_codec for object array"
    | some oc => .ok (.pstr (base64encode (oc.enc v)))
  else if dtype.kind = 'f' then encodeFloatBranch v
  else if dtype.kind = 'u' ∨ dtype.kind = 'i' then (pyInt v).map .pint
  else if dtype.kind = 'b' then (pyBool v).map .pbool
  else if dtype.kind = 'c' then
    match v with
    | .pcomplex re im => .ok (.ptuple [encodeFloatFill re, encodeFloatFill im])
    | _ => .error "AttributeError: real"
  else if dtype.kind = 'S' ∨ dtype.kind = 'V' then
    match v with
    | .pbytes bs => .ok (.pstr (base64encode bs))
    | _ => .error "TypeError: argument should be a bytes-like object"
  else if dtype.kind = 'U' then .ok v
  else if dtype.kind = 'm' ∨ dtype.kind = 'M' then
    match v with
    | .pdatetime n => .ok (.pint n)
    | _ => .error "AttributeError: view"
  else .ok v

/-- Is an encoder result a (successfully produced) Python string? -/
def isOkStr : Except String PyVal → Bool
  | .ok (.pstr _) => true
  | _ => false

/-- Did a computation succeed? -/
def exceptOk : Except String α → Bool
  | .ok _ => true
  | .error _ => false

/-! ### Constants of `xpublish/utils/zarr.py` and `xpublish/utils/api.py` -/

def ZARR_FORMAT : Nat := 2
def ZARR_CONSOLIDATED_FORMAT : Nat := 1
def array_meta_key : String := ".zarray"
def group_meta_key : String := ".zgroup"
def attrs_key : String := ".zattrs"
def DATASET_ID_ATTR_KEY : String := "_xpublish_id"

/-- `DIMENSION_KEY` imported from the array library backend. -/
def DIMENSION_KEY : String := "_ARRAY_DIMENSIONS"

/-- The store key `f'{key}/{attrs_key}'` of a variable's attribute document. -/
def varAttrsKey (k : String) : String := k ++ "/" ++ attrs_key

/-- The store key `f'{key}/{array_meta_key}'` of a variable's array descriptor. -/
def varArrayKey (k : String) : String := k ++ "/" ++ array_meta_key

/-! ### The dataset model

The dataset abstraction is an external collaborator: the core only reads
names, dims, shapes, attribute mappings, encodings, dtypes and the backing
chunk grid.  A variable is backed either by a chunked (dask) array carrying
a per-axis chunk grid, or by a plain in-memory array. -/

/-- A compressor/filter codec object as metadata carries it: its identity
and the plain-data dictionary `get_config()` returns. -/
structure MCodec where
  cid : String
  config : List (String × PyVal)

/-- A value stored in a descriptor's compressor/filters slot: either a live
codec object, or (after `jsonify_zmetadata`) its plain-data config. -/
inductive CodecVal where
  | codec (c : MCodec)
  | cfg (conf : List (String × PyVal))

/-- The backing array of a variable: chunked (dask, with its real per-axis
chunk grid `da.data.chunks`) or fully in-memory (numpy). -/
inductive Backing where
  | dask (chunkGrid : List (List Nat))
  | numpy

/-- A variable's `encoding` dictionary restricted to the keys the metadata
builder reads.  The outer `Option` is key presence (`k in d`), the inner
value may itself be Python `None`. -/
structure VarEncoding where
  compressor : Option (Option MCodec)
  filters : Option (Option (List MCodec))
  chunks : Option (List Nat)

/-- A (possibly encoded) dataset variable as the metadata builder reads it. -/
structure XVar where
  dims : List String
  shape : List Nat
  attrs : List (String × PyVal)
  encoding : VarEncoding
  dtype : Dtype
  backing : Backing

/-- A dataset: global attributes plus named variables in declaration order.
`coordsOf k` gives the coordinate names of the DataArray `dataset[k]`, as
the external dataset abstraction computes them. -/
structure Dataset where
  attrs : List (String × PyVal)
  /-- `dataset.variables`, in declaration order (`variables` is reserved in Lean). -/
  vars : List (String × XVar)
  coordsOf : String → List String

/-- The DataArray view `dataset[key]` as `_extract_dataarray_coords` reads
it: its name, its dimension names and its coordinate names. -/
structure DAView where
  name : Option String
  dims : List String
  coords : List String

def daView (ds : Dataset) (k : String) : DAView :=
  { name := some k
    dims := (dget? ds.vars k).elim [] XVar.dims
    coords := ds.coordsOf k }

/-- The array descriptor dictionary built by `_extract_zarray` (field names
are the dict keys of the source). -/
structure ZArray where
  compressor : Option CodecVal
  filters : Option (List CodecVal)
  chunks : List Nat
  dtype : String
  fill_value : PyVal
  order : String
  shape : List Nat
  zarr_format : Nat

/-- A document stored under one consolidated-metadata key. -/
inductive MetaDoc where
  | group (zarr_format : Nat)
  | attrsDoc (attrs : List (String × PyVal))
  | arrayDoc (za : ZArray)

/-- The consolidated metadata document of `create_zmetadata`. -/
structure ZMeta where
  zarr_consolidated_format : Nat
  metadata : List (String × MetaDoc)

/-- `default_compressor = Blosc()` with its `get_config()` dictionary. -/
def default_compressor : Option MCodec :=
  some { cid := "blosc"
         config := [("id", .pstr "blosc"), ("cname", .pstr "lz4"),
           ("clevel", .pint 5), ("shuffle", .pint 1), ("blocksize", .pint 0)] }

/-! ### Metadata extraction (`xpublish/utils/zarr.py`) -/

/-- Modelled from the spec: the external attribute encoder
(`encode_zarr_attr_value` of the array library) maps values to a wire-safe
representation — numpy arrays are converted via `tolist()`, numpy scalars
unwrapped via `item()`, anything else passes through. -/
def encode_zarr_attr_value : PyVal → PyVal
  | .ndarray xs => .plist xs
  | .npgeneric v => v
  | v => v

/-- Python dict construction `d = {}; for k, v in items: d[k] = f(v)`. -/
def dictOfItems (f : PyVal → PyVal) (items : List (String × PyVal)) :
    List (String × PyVal) :=
  items.foldl (fun d kv => dsetItem d kv.1 (f kv.2)) []

/-- `normalize_shape` (lines 55-67): `da.shape` is always a tuple of ints,
so the `None` and 1-D convenience branches do not arise and the
normalization is the identity on it. -/
def normalize_shape (shape : List Nat) : List Nat := shape

/-- `_extract_dataset_zattrs` (lines 102-111): encode every global
attribute, then pop the internal dataset-identity attribute. -/
def _extract_dataset_zattrs (dataset : Dataset) : List (String × PyVal) :=
  let zattrs := dictOfItems encode_zarr_attr_value dataset.attrs
  (dpop zattrs DATASET_ID_ATTR_KEY).2

/-- `_extract_dataarray_zattrs` (lines 114-125): encode the attributes, add
the synthetic dimension-names entry, pop `_FillValue`. -/
def _extract_dataarray_zattrs (da : XVar) : List (String × PyVal) :=
  let zattrs := dictOfItems encode_zarr_attr_value da.attrs
  let zattrs := dsetItem zattrs DIMENSION_KEY (.plist (da.dims.map .pstr))
  (dpop zattrs "_FillValue").2

/-- Python string `<=`: code-point lexicographic comparison. -/
def charListLe : List Char → List Char → Bool
  | [], _ => true
  | _ :: _, [] => false
  | a :: as, b :: bs =>
    if a.toNat < b.toNat then true
    else if b.toNat < a.toNat then false
    else charListLe as bs

def pyStrLe (a b : String) : Bool := charListLe a.data b.data

/-- Insert into a `pyStrLe`-sorted list, keeping it sorted. -/
def insertSorted (x : String) : List String → List String
  | [] => [x]
  | y :: ys => if pyStrLe x y then x :: y :: ys else y :: insertSorted x ys

/-- Insertion sort by `pyStrLe`. -/
def sortStrings : List String → List String
  | [] => []
  | x :: xs => insertSorted x (sortStrings xs)

/-- Python `sorted` on a set of strings: the distinct elements in
lexicographic order. -/
def sortedStrings (l : List String) : List String :=
  sortStrings l.dedup

/-- `set(da.coords) - set(da.dims)` as the distinct list of coordinate
names that are not dimensions. -/
def nondimCoords (da : DAView) : List String :=
  (da.coords.filter (fun c => !da.dims.contains c)).dedup

/-- `_extract_dataarray_coords` (lines 128-140): when the DataArray has
non-dimension coordinates and is not itself one of them, attach a
`coordinates` attribute, alphabetically sorted and space-joined. -/
def _extract_dataarray_coords (da : DAView) (zattrs : List (String × PyVal)) :
    List (String × PyVal) :=
  if da.coords.isEmpty then zattrs
  else
    let nondim := nondimCoords da
    let nameNotIn : Bool := da.name.elim true (fun n => !nondim.contains n)
    if 0 < nondim.length && nameNotIn then
      let coords := String.intercalate " " (sortedStrings nondim)
      dsetItem zattrs "coordinates" (encode_zarr_attr_value (.pstr coords))
    else zattrs

/-- `_extract_fill_value` (lines 143-149): pop `_FillValue` out of the
variable's attributes (a real mutation of the variable it is handed) and
encode it.  Returns the encoder result and the mutated variable. -/
def _extract_fill_value (da : XVar) (dtype : Dtype) :
    Except String PyVal × XVar :=
  let p := dpop da.attrs "_FillValue"
  (encode_fill_value (p.1.getD .pnone) dtype none, { da with attrs := p.2 })

/-- `_extract_zarray` (lines 152-183): build the array descriptor and
validate declared against inferred chunks.  Returns the descriptor and the
(`_FillValue`-popped) variable. -/
def _extract_zarray (da : XVar) (encoding : VarEncoding) (dtype : Dtype) :
    Except String (ZArray × XVar) :=
  let fvp := _extract_fill_value da dtype
  match fvp.1 with
  | .error e => .error e
  | .ok fv =>
    let meta : ZArray :=
      { compressor :=
          ((encoding.compressor.getD (da.encoding.compressor.getD default_compressor)).map .codec)
        filters :=
          ((encoding.filters.getD (da.encoding.filters.getD none)).map (fun l => l.map .codec))
        chunks := encoding.chunks.getD da.shape
        dtype := dtype.str
        fill_value := fv
        order := "C"
        shape := normalize_shape da.shape
        zarr_format := ZARR_FORMAT }
    match da.backing with
    | .dask grid =>
      let var_chunks := grid.map (fun c => c.headD 0)
      if var_chunks ≠ meta.chunks then
        .error "Encoding chunks do not match inferred chunks"
      else .ok (meta, fvp.2)
    | .numpy =>
      let meta := { meta with chunks := da.shape }
      let var_chunks := da.shape
      if var_chunks ≠ meta.chunks then
        .error "Encoding chunks do not match inferred chunks"
      else .ok (meta, fvp.2)

/-! ### The external encoding extractor -/

/-- Per-axis uniformity accepted by the external chunk determination:
all non-final chunks equal, and the final chunk no larger than the first. -/
def allEqNat : List Nat → Bool
  | [] => true
  | x :: xs => xs.all (fun y => y == x)

def axisUniformOk (axis : List Nat) : Bool :=
  allEqNat axis.dropLast && (allEqNat axis || !(axis.headD 0 < axis.getLastD 0))

/-- Modelled from the spec: the chunk determination inside the external
`extract_zarr_variable_encoding` collaborator — explicit encoding `chunks`
pass through; otherwise a chunked backing contributes the first chunk of
each axis of its real grid after the uniformity validation; an in-memory
backing contributes nothing. -/
def determine_zarr_chunks (encChunks : Option (List Nat)) (backing : Backing) :
    Except String (Option (List Nat)) :=
  match encChunks, backing with
  | none, .numpy => .ok none
  | none, .dask grid =>
    if grid.all axisUniformOk then .ok (some (grid.map (fun c => c.headD 0)))
    else .error "Zarr requires uniform chunk sizes except for final chunk"
  | some ec, _ => .ok (some ec)

/-- Modelled from the spec: the external `extract_zarr_variable_encoding`
collaborator, restricted to the keys the metadata builder reads — the
variable's own compressor/filters pass through and `chunks` is resolved by
`determine_zarr_chunks`. -/
def extract_zarr_variable_encoding (v : XVar) : Except String VarEncoding :=
  match determine_zarr_chunks v.encoding.chunks v.backing with
  | .error e => .error e
  | .ok chunks =>
    .ok { compressor := v.encoding.compressor
          filters := v.encoding.filters
          chunks := chunks }

/-! ### `create_zmetadata`

`encode_zarr_variable` is an external collaborator (the array library's
CF encoder); per the collaborator contract the encoded variable is a fresh
value carrying its own attribute mapping.  We therefore take it as an
arbitrary function parameter `encVar` and prove the claims for every such
function. -/

/-- The loop body of `create_zmetadata` (lines 206-217) for one variable:
encode the variable, extract its encoding, build both documents and insert
them.  The second component is the encoded local after `_extract_zarray`
popped `_FillValue` out of it — the only mutation of the iteration. -/
def zmetaVarEntries (encVar : String → XVar → XVar) (ds : Dataset)
    (acc : List (String × MetaDoc)) (k : String) (dvar : XVar) :
    Except String (List (String × MetaDoc) × XVar) :=
  let encoded_da := encVar k dvar
  match extract_zarr_variable_encoding dvar with
  | .error e => .error e
  | .ok encoding =>
    let zattrs := _extract_dataarray_zattrs encoded_da
    let zattrs := _extract_dataarray_coords (daView ds k) zattrs
    let acc2 := dsetItem acc (varAttrsKey k) (.attrsDoc zattrs)
    match _extract_zarray encoded_da encoding encoded_da.dtype with
    | .error e => .error e
    | .ok zres => .ok (dsetItem acc2 (varArrayKey k) (.arrayDoc zres.1), zres.2)

/-- The variable loop of `create_zmetadata`, with the dataset state
threaded explicitly: each iteration's only mutation lands on the freshly
encoded local (dropped here as the Python local dies), so the dataset
flows through unchanged. -/
def create_zmetadata_vars (encVar : String → XVar → XVar) (ds : Dataset) :
    List (String × XVar) → List (String × MetaDoc) → Dataset →
    Except String (List (String × MetaDoc)) × Dataset
  | [], acc, st => (.ok acc, st)
  | (k, dvar) :: rest, acc, st =>
    match zmetaVarEntries encVar ds acc k dvar with
    | .error e => (.error e, st)
    | .ok r => create_zmetadata_vars encVar ds rest r.1 st

/-- `create_zmetadata` (lines 197-219) as a state transformer: the built
document together with the dataset as the caller observes it afterwards. -/
def create_zmetadata_state (encVar : String → XVar → XVar) (ds : Dataset) :
    Except String ZMeta × Dataset :=
  let meta0 := dsetItem ([] : List (String × MetaDoc)) group_meta_key (.group ZARR_FORMAT)
  let meta1 := dsetItem meta0 attrs_key (.attrsDoc (_extract_dataset_zattrs ds))
  let r := create_zmetadata_vars encVar ds ds.vars meta1 ds
  (r.1.map (fun md =>
    { zarr_consolidated_format := ZARR_CONSOLIDATED_FORMAT, metadata := md }), r.2)

/-- `create_zmetadata` as the pure function of its Python signature. -/
def create_zmetadata (encVar : String → XVar → XVar) (ds : Dataset) :
    Except String ZMeta :=
  (create_zmetadata_state encVar ds).1

/-! ### `jsonify_zmetadata` -/

/-- The `filters_configs` accumulation loop (lines 241-243): every live
codec contributes its config; a non-codec value has no `get_config`. -/
def filtersConfigs : List CodecVal → Option (List CodecVal)
  | [] => some []
  | cv :: rest =>
    match cv with
    | .codec c => (filtersConfigs rest).map (fun l => .cfg c.config :: l)
    | .cfg _ => none

/-- JSON projection of one descriptor: live codec objects in the
compressor and filters slots replaced by their `get_config()` dictionaries
(lines 229-244; a slot that is no longer a codec object has no
`get_config` and raises). -/
def jsonify_zarray (za : ZArray) : Except String ZArray :=
  let comp : Except String (Option CodecVal) :=
    match za.compressor with
    | none => .ok none
    | some (.codec c) => .ok (some (.cfg c.config))
    | some (.cfg _) => .error "AttributeError: get_config"
  match comp with
  | .error e => .error e
  | .ok comp =>
    let filts : Except String (Option (List CodecVal)) :=
      match za.filters with
      | none => .ok none
      | some l =>
        match filtersConfigs l with
        | some l2 => .ok (some l2)
        | none => .error "AttributeError: get_config"
    match filts with
    | .error e => .error e
    | .ok filts => .ok { za with compressor := comp, filters := filts }

/-- The loop of `jsonify_zmetadata` over `list(dataset.variables)`,
rewriting each variable's array descriptor in the copied document. -/
def jsonify_loop : List String → List (String × MetaDoc) →
    Except String (List (String × MetaDoc))
  | [], md => .ok md
  | k :: rest, md =>
    match dget? md (varArrayKey k) with
    | some (.arrayDoc za) =>
      match jsonify_zarray za with
      | .ok za2 => jsonify_loop rest (dsetItem md (varArrayKey k) (.arrayDoc za2))
      | .error e => .error e
    | some _ => .error "AttributeError: get_config"
    | none => .error "KeyError"

/-- `jsonify_zmetadata` (lines 222-246): `zjson = copy.deepcopy(zmetadata)`
severs all sharing, then the loop rewrites only the copy.  The first
component is the caller's document after the call (unchanged); the second
the JSON-projected copy. -/
def jsonify_zmetadata (dataset : Dataset) (zmetadata : ZMeta) :
    ZMeta × Except String ZMeta :=
  let zjson := zmetadata
  (zmetadata, (jsonify_loop (dkeys dataset.vars) zjson.metadata).map
    (fun md => { zjson with metadata := md }))

/-! ### `encode_chunk` -/

/-- A raw chunk buffer as the chunk encoder sees it: its element dtype
kind (numpy `object` dtype has kind `O`) and its bytes. -/
structure Buf where
  dtypeKind : Char
  bytes : List Nat

/-- `encode_chunk` (lines 249-270): apply the filter pipeline, reject
object-dtype payloads, then compress.  (`if filters:` skips the loop for
`None` and for an empty list; folding an empty list is the same no-op.) -/
def encode_chunk (chunk : Buf) (filters : Option (List (Buf → Buf)))
    (compressor : Option (Buf → Buf)) : Except String Buf :=
  let chunk := match filters with
    | some fs => fs.foldl (fun c f => f c) chunk
    | none => chunk
  if chunk.dtypeKind = 'O' then
    .error "cannot write object array without object codec"
  else
    match compressor with
    | some comp => .ok (comp chunk)
    | none => .ok chunk

/-! ### `get_data_chunk` -/

/-- An in-memory n-dimensional array: its shape and its element at each
multi-index (element values modelled as integers). -/
structure NpArr where
  shape : List Nat
  item : List Nat → Int

/-- The array-like handed to `get_data_chunk`: a chunked (dask) array
exposing its block grid (block indexing modelled as a total map — out of
range handling belongs to the external library), or an in-memory array. -/
inductive ArrLike where
  | dask (blocks : List Nat → NpArr)
  | np (arr : NpArr)

/-- Python `s.split('.')` on the character list (an empty string yields
one empty component, exactly like Python). -/
def splitDots : List Char → List (List Char)
  | [] => [[]]
  | c :: rest =>
    let r := splitDots rest
    if c = '.' then [] :: r
    else
      match r with
      | [] => [[c]]
      | g :: gs => (c :: g) :: gs

def isDigitCh (c : Char) : Bool := 48 ≤ c.toNat && c.toNat ≤ 57

/-- Python `int` on one key component, for canonical non-negative keys:
a non-empty digit string parses, anything else raises `ValueError`. -/
def parseNatDigits (cs : List Char) : Option Nat :=
  if cs.isEmpty then none
  else if cs.all isDigitCh then
    some (cs.foldl (fun n c => n * 10 + (c.toNat - 48)) 0)
  else none

/-- `tuple(map(int, chunk_id.split('.')))`. -/
def parse_chunk_id (chunk_id : String) : Except String (List Nat) :=
  match (splitDots chunk_id.data).mapM parseNatDigits with
  | some l => .ok l
  | none => .error "invalid literal for int() with base 10"

/-- Python `repr` of a tuple of ints, as `%s` formats `((0,) * ndim)`. -/
def pyTupleRepr (l : List Nat) : String :=
  match l with
  | [] => "()"
  | [x] => "(" ++ toString x ++ ",)"
  | _ => "(" ++ String.intercalate ", " (l.map toString) ++ ")"

/-- The chunk fetch of `get_data_chunk` (lines 283-291): block indexing
for chunked arrays; for in-memory arrays a key other than all-zeros is
rejected only at positive rank. -/
def fetch_chunk (da : ArrLike) (chunk_id : String) (ikeys : List Nat) :
    Except String NpArr :=
  match da with
  | .dask blocks => .ok (blocks ikeys)
  | .np arr =>
    if 0 < arr.shape.length ∧ ikeys ≠ List.replicate arr.shape.length 0 then
      .error ("Invalid chunk_id for numpy array: " ++ chunk_id ++
        ". Should have been: " ++ pyTupleRepr (List.replicate arr.shape.length 0))
    else .ok arr

/-- Is `idx` inside the leading region bounded by `shape`? -/
def idxInShape (idx shape : List Nat) : Bool :=
  idx.length == shape.length && (idx.zip shape).all (fun p => decide (p.1 < p.2))

/-- `np.empty_like(chunk_data, shape=out_shape)` followed by
`new_chunk[write_slice] = chunk_data`: the declared shape, the fetched
data on the leading sub-region, and the allocator's uninitialized residue
elsewhere (`np.empty_like` does not initialize its buffer). -/
def padToShape (residue : List Nat → Int) (chunk : NpArr) (outShape : List Nat) :
    NpArr :=
  { shape := outShape
    item := fun idx =>
      if idxInShape idx chunk.shape then chunk.item idx else residue idx }

/-- `get_data_chunk` (lines 273-305).  `residue` is the content
`np.empty_like` happens to leave in the buffer it allocates. -/
def get_data_chunk (residue : List Nat → Int) (da : ArrLike)
    (chunk_id : String) (out_shape : List Nat) : Except String NpArr :=
  match parse_chunk_id chunk_id with
  | .error e => .error e
  | .ok ikeys =>
    match fetch_chunk da chunk_id ikeys with
    | .error e => .error e
    | .ok chunk_data =>
      if chunk_data.shape ≠ out_shape then
        .ok (padToShape residue chunk_data out_shape)
      else .ok chunk_data

/-- The element an (`Except`-wrapped) chunk result holds at an index. -/
def chunkItem (e : Except String NpArr) (idx : List Nat) : Int :=
  match e with
  | .ok a => a.item idx
  | .error _ => 0

/-! ## Theorems for the claims -/

/-- Claim C6, counterexample: the fill value `datetime64(42)` at a
datetime dtype is encoded as the integer 42 (the i8 view), not as an
ISO-8601 string as claimed. -/
theorem C6_counterexample :
    encode_fill_value (.pdatetime 42) ⟨'M', "<M8[ns]", false⟩ none = .ok (.pint 42)
    ∧ isOkStr (encode_fill_value (.pdatetime 42) ⟨'M', "<M8[ns]", false⟩ none) = false :=
  ⟨rfl, rfl⟩

/-- Claim C6 (amended): for every fill value of a datetime or timedelta
dtype, `encode_fill_value` returns the integer obtained by viewing the
value as a 64-bit integer (`int(v.view(i8))`). -/
theorem C6_encode_fill_value_datetime (n : Int) (k : Char) (s : String)
    (ho : Bool) (oc : Option ObjectCodec) (hk : k = 'm' ∨ k = 'M') :
    encode_fill_value (.pdatetime n) ⟨k, s, ho⟩ oc = .ok (.pint n) := by
  rcases hk with h | h <;> subst h <;> cases ho <;> cases oc <;> rfl

/-- Witness for C6: the timedelta case at a concrete input. -/
theorem C6_witness :
    encode_fill_value (.pdatetime 7) ⟨'m', "<m8[ns]", false⟩ none = .ok (.pint 7) :=
  C6_encode_fill_value_datetime 7 'm' "<m8[ns]" false none (Or.inl rfl)

/-- Claim C9: `encode_chunk` with no filters raises the object-array
error exactly when the buffer's dtype is the object dtype, and with
additionally no compressor it returns the input buffer unchanged. -/
theorem C9_encode_chunk_no_filters (chunk : Buf) (compressor : Option (Buf → Buf)) :
    (encode_chunk chunk none compressor =
        .error "cannot write object array without object codec"
      ↔ chunk.dtypeKind = 'O')
    ∧ (chunk.dtypeKind ≠ 'O' → encode_chunk chunk none none = .ok chunk) := by
  unfold encode_chunk
  by_cases h : chunk.dtypeKind = 'O'
  · simp [h]
  · cases compressor <;> simp [h]

/-- Witness for C9: a float buffer with no filters and no compressor
passes through unchanged. -/
theorem C9_witness : encode_chunk ⟨'f', [1, 2]⟩ none none = .ok ⟨'f', [1, 2]⟩ :=
  (C9_encode_chunk_no_filters ⟨'f', [1, 2]⟩ none).2 (by decide)

/-- Claim C5, counterexample: the padding of a short edge chunk is the
allocator residue of `np.empty_like` (here 7), not zero — the buffer is
uninitialized, not zero-initialized. -/
theorem C5_counterexample :
    chunkItem (get_data_chunk (fun _ => 7)
      (.np ⟨[10], fun idx => (idx.headD 0 : Int)⟩) "0" [12]) [10] = 7
    ∧ (decide ((7 : Int) = 0)) = false :=
  ⟨rfl, rfl⟩

/-- Claim C5 (amended): whenever `get_data_chunk` succeeds, the returned
array has exactly the declared output shape and its leading sub-region
equals the fetched chunk data (the trailing padding is the uninitialized
allocator residue). -/
theorem C5_get_data_chunk_pad (residue : List Nat → Int) (da : ArrLike)
    (chunk_id : String) (out_shape : List Nat) (r : NpArr)
    (hok : get_data_chunk residue da chunk_id out_shape = .ok r) :
    r.shape = out_shape ∧
    ∃ ikeys c, parse_chunk_id chunk_id = .ok ikeys ∧
      fetch_chunk da chunk_id ikeys = .ok c ∧
      ∀ idx, idxInShape idx c.shape = true → r.item idx = c.item idx := by
  unfold get_data_chunk at hok
  cases hP : parse_chunk_id chunk_id with
  | error e => rw [hP] at hok; exact absurd hok (by simp)
  | ok ikeys =>
    rw [hP] at hok
    dsimp only at hok
    cases hF : fetch_chunk da chunk_id ikeys with
    | error e => rw [hF] at hok; exact absurd hok (by simp)
    | ok c =>
      rw [hF] at hok
      dsimp only at hok
      by_cases hs : c.shape ≠ out_shape
      · rw [if_pos hs] at hok
        obtain rfl : padToShape residue c out_shape = r := by
          simpa using hok
        exact ⟨rfl, ikeys, c, rfl, hF, fun idx h => by simp [padToShape, h]⟩
      · rw [if_neg hs] at hok
        obtain rfl : c = r := by simpa using hok
        push_neg at hs
        exact ⟨hs, ikeys, c, rfl, hF, fun idx h => rfl⟩

/-- Witness for C5: the spec's own example — an unchunked length-10 array
served with declared output shape 12 yields a 12-element result. -/
theorem C5_witness :
    (padToShape (fun _ => 7) ⟨[10], fun idx => (idx.headD 0 : Int)⟩ [12]).shape = [12] :=
  (C5_get_data_chunk_pad (fun _ => 7)
    (.np ⟨[10], fun idx => (idx.headD 0 : Int)⟩) "0" [12]
    (padToShape (fun _ => 7) ⟨[10], fun idx => (idx.headD 0 : Int)⟩ [12]) rfl).1

/-- Claim C4, counterexample: a zero-rank in-memory array accepts the key
"1", whose parsed form differs from the all-zeros key of rank 0, without
raising, and returns the scalar data. -/
theorem C4_counterexample :
    parse_chunk_id "1" = .ok [1]
    ∧ (decide (([1] : List Nat) = List.replicate 0 0)) = false
    ∧ get_data_chunk (fun _ => 0) (.np ⟨[], fun _ => 5⟩) "1" [] = .ok ⟨[], fun _ => 5⟩
    ∧ chunkItem (get_data_chunk (fun _ => 0) (.np ⟨[], fun _ => 5⟩) "1" []) [] = 5 :=
  ⟨rfl, rfl, rfl, rfl⟩

/-- Claim C4 (amended): for an in-memory array of positive rank,
`get_data_chunk` raises, naming the expected all-zeros key, exactly when
the parsed key differs from the all-zeros key; a zero-rank array accepts
every well-formed key — in particular the literal key "0" — and returns
the scalar data. -/
theorem C4_get_data_chunk_numpy (residue : List Nat → Int) (arr : NpArr)
    (chunk_id : String) (out : List Nat) (ikeys : List Nat)
    (hp : parse_chunk_id chunk_id = .ok ikeys) :
    (0 < arr.shape.length → ikeys ≠ List.replicate arr.shape.length 0 →
      get_data_chunk residue (.np arr) chunk_id out =
        .error ("Invalid chunk_id for numpy array: " ++ chunk_id ++
          ". Should have been: " ++ pyTupleRepr (List.replicate arr.shape.length 0)))
    ∧ (ikeys = List.replicate arr.shape.length 0 →
        exceptOk (get_data_chunk residue (.np arr) chunk_id out) = true)
    ∧ (arr.shape = [] →
        exceptOk (get_data_chunk residue (.np arr) chunk_id out) = true)
    ∧ (arr.shape = [] → out = [] →
        get_data_chunk residue (.np arr) chunk_id out = .ok arr) := by
  refine ⟨fun hrank hne => ?_, fun hzero => ?_, fun hscalar => ?_, fun hscalar hout => ?_⟩
  · unfold get_data_chunk fetch_chunk
    rw [hp]
    dsimp only
    rw [if_pos ⟨hrank, hne⟩]
  · unfold get_data_chunk fetch_chunk
    rw [hp]
    dsimp only
    rw [if_neg (by simp [hzero])]
    dsimp only
    by_cases hs : arr.shape ≠ out
    · rw [if_pos hs]; rfl
    · rw [if_neg hs]; rfl
  · unfold get_data_chunk fetch_chunk
    rw [hp]
    dsimp only
    rw [if_neg (by simp [hscalar])]
    dsimp only
    by_cases hs : arr.shape ≠ out
    · rw [if_pos hs]; rfl
    · rw [if_neg hs]; rfl
  · unfold get_data_chunk fetch_chunk
    rw [hp]
    dsimp only
    rw [if_neg (by simp [hscalar])]
    dsimp only
    rw [if_neg (by simp [hscalar, hout])]

/-- Witness for C4: a rank-1 in-memory array rejects the key "1" with the
message naming the expected key. -/
theorem C4_witness :
    get_data_chunk (fun _ => 0) (.np ⟨[2], fun _ => 3⟩) "1" [2] =
      .error "Invalid chunk_id for numpy array: 1. Should have been: (0,)" :=
  (C4_get_data_chunk_numpy (fun _ => 0) ⟨[2], fun _ => 3⟩ "1" [2] [1] rfl).1
    (by decide) (by decide)

/-! ### Chunk resolution: C3 and C7 -/

/-- On success, the descriptor's `chunks` entry: for a chunked backing it
equals the resolved encoding chunks and the first chunk of every axis of
the real grid; for an in-memory backing it is the full shape. -/
theorem extract_zarray_ok_chunks (da : XVar) (enc : VarEncoding) (dt : Dtype)
    (za : ZArray) (v2 : XVar) (h : _extract_zarray da enc dt = .ok (za, v2)) :
    (∀ grid, da.backing = .dask grid →
      za.chunks = enc.chunks.getD da.shape ∧
      grid.map (fun c => c.headD 0) = za.chunks)
    ∧ (da.backing = .numpy → za.chunks = da.shape) := by
  unfold _extract_zarray at h
  dsimp only at h
  cases hf : (_extract_fill_value da dt).1 with
  | error e => rw [hf] at h; exact absurd h (by simp)
  | ok fv =>
    rw [hf] at h
    dsimp only at h
    cases hb : da.backing with
    | dask grid =>
      rw [hb] at h
      dsimp only at h
      by_cases hm : grid.map (fun c => c.headD 0) ≠ enc.chunks.getD da.shape
      · rw [if_pos hm] at h; exact absurd h (by simp)
      · rw [if_neg hm] at h
        push_neg at hm
        simp only [Except.ok.injEq, Prod.mk.injEq] at h
        obtain ⟨h1, _⟩ := h
        subst h1
        refine ⟨fun grid₂ hg => ?_, fun hg => ?_⟩
        · obtain rfl : grid₂ = grid := by
            injection hg.symm
          exact ⟨rfl, hm⟩
        · exact absurd hg (by simp)
    | numpy =>
      rw [hb] at h
      dsimp only at h
      rw [if_neg (by simp)] at h
      simp only [Except.ok.injEq, Prod.mk.injEq] at h
      obtain ⟨h1, _⟩ := h
      subst h1
      exact ⟨fun grid₂ hg => absurd hg (by simp), fun hg => rfl⟩

/-- Concrete variable of the C3 counterexample: actual dask chunking 4,
declared encoding chunks 8. -/
def c3da : XVar :=
  { dims := ["x"], shape := [5], attrs := []
    encoding := ⟨none, none, none⟩, dtype := ⟨'i', "<i8", false⟩
    backing := .dask [[4, 1]] }

def c3enc : VarEncoding := ⟨none, none, some [8]⟩

/-- Claim C3, counterexample: the chunk-mismatch error is raised with a
fixed message that names neither the specified chunk value 8 nor the
inferred chunk value 4 (no digit of either appears in it). -/
theorem C3_counterexample :
    _extract_zarray c3da c3enc c3da.dtype =
      .error "Encoding chunks do not match inferred chunks"
    ∧ ("Encoding chunks do not match inferred chunks".data.contains '8') = false
    ∧ ("Encoding chunks do not match inferred chunks".data.contains '4') = false :=
  ⟨rfl, rfl, rfl⟩

/-- Claim C3 (amended): for a variable backed by a chunked (dask) array
whose fill-value extraction succeeds, `_extract_zarray` raises the chunk
mismatch error — with its fixed, value-free message — exactly when the
first chunk of some axis of the real grid differs from the resolved
`chunks`; when they agree on every axis it succeeds. -/
theorem C3_extract_zarray_mismatch (da : XVar) (enc : VarEncoding) (dt : Dtype)
    (grid : List (List Nat)) (hb : da.backing = .dask grid)
    (hfill : exceptOk (_extract_fill_value da dt).1 = true) :
    (_extract_zarray da enc dt = .error "Encoding chunks do not match inferred chunks"
      ↔ grid.map (fun c => c.headD 0) ≠ enc.chunks.getD da.shape)
    ∧ (grid.map (fun c => c.headD 0) = enc.chunks.getD da.shape →
        exceptOk (_extract_zarray da enc dt) = true) := by
  unfold _extract_zarray
  dsimp only
  cases hf : (_extract_fill_value da dt).1 with
  | error e => rw [hf] at hfill; exact absurd hfill (by simp [exceptOk])
  | ok fv =>
    dsimp only
    rw [hb]
    dsimp only
    by_cases hm : grid.map (fun c => c.headD 0) ≠ enc.chunks.getD da.shape
    · rw [if_pos hm]
      exact ⟨⟨fun _ => hm, fun _ => rfl⟩, fun h => absurd h hm⟩
    · rw [if_neg hm]
      push_neg at hm
      exact ⟨⟨fun h => absurd h (by simp), fun h => absurd hm h⟩, fun _ => rfl⟩

/-- Concrete variable for the C3 witness: uniform dask chunking 4 agreeing
with the declared encoding chunks. -/
def c3db : XVar :=
  { dims := ["x"], shape := [10], attrs := []
    encoding := ⟨none, none, none⟩, dtype := ⟨'i', "<i8", false⟩
    backing := .dask [[4, 4, 2]] }

def c3encb : VarEncoding := ⟨none, none, some [4]⟩

/-- Witness for C3: chunks that agree on every axis build successfully. -/
theorem C3_witness :
    exceptOk (_extract_zarray c3db c3encb c3db.dtype) = true :=
  (C3_extract_zarray_mismatch c3db c3encb c3db.dtype [[4, 4, 2]] rfl rfl).2 (by decide)

/-- The `chunks` entry of the array descriptor as `create_zmetadata`
resolves it for one variable: the external encoding extraction on the raw
variable, then `_extract_zarray` on the encoded variable. -/
def variable_chunks (encVar : String → XVar → XVar) (k : String) (dvar : XVar) :
    Except String (List Nat) :=
  match extract_zarr_variable_encoding dvar with
  | .error e => .error e
  | .ok enc =>
    match _extract_zarray (encVar k dvar) enc (encVar k dvar).dtype with
    | .error e => .error e
    | .ok zres => .ok zres.1.chunks

/-- Concrete variable of the C7 counterexample: in-memory backing with
explicit encoding chunks 5 on a shape-10 axis. -/
def c7da : XVar :=
  { dims := ["x"], shape := [10], attrs := []
    encoding := ⟨none, none, some [5]⟩, dtype := ⟨'f', "<f8", false⟩
    backing := .numpy }

/-- Claim C7, counterexample: for an in-memory variable the explicit
encoding chunks 5 are silently overridden — the descriptor carries the
full shape 10, not the explicit value the claim requires. -/
theorem C7_counterexample :
    variable_chunks (fun _ v => v) "x" c7da = .ok [10]
    ∧ (decide (([10] : List Nat) = [5])) = false :=
  ⟨rfl, rfl⟩

/-- Claim C7 (amended): on success the descriptor's `chunks` are the
explicit encoding chunks for chunked backing, else the first chunks of the
real grid for chunked backing; for in-memory backing they are always the
full shape, overriding any explicit encoding value.  (The encoded variable
is assumed to preserve backing and shape.) -/
theorem C7_variable_chunks (encVar : String → XVar → XVar) (k : String)
    (dvar : XVar) (hB : (encVar k dvar).backing = dvar.backing)
    (hS : (encVar k dvar).shape = dvar.shape) :
    (∀ grid ec l, dvar.backing = .dask grid → dvar.encoding.chunks = some ec →
      variable_chunks encVar k dvar = .ok l → l = ec)
    ∧ (∀ grid l, dvar.backing = .dask grid → dvar.encoding.chunks = none →
        variable_chunks encVar k dvar = .ok l →
        l = grid.map (fun c => c.headD 0))
    ∧ (∀ l, dvar.backing = .numpy →
        variable_chunks encVar k dvar = .ok l → l = dvar.shape) := by
  refine ⟨fun grid ec l hb he hok => ?_, fun grid l hb he hok => ?_,
    fun l hb hok => ?_⟩
  · unfold variable_chunks extract_zarr_variable_encoding determine_zarr_chunks at hok
    rw [he, hb] at hok
    dsimp only at hok
    cases hE : _extract_zarray (encVar k dvar) ⟨dvar.encoding.compressor,
        dvar.encoding.filters, some ec⟩ (encVar k dvar).dtype with
    | error e => rw [hE] at hok; exact absurd hok (by simp)
    | ok zres =>
      rw [hE] at hok
      simp only [Except.ok.injEq] at hok
      subst hok
      have hc := (extract_zarray_ok_chunks _ _ _ zres.1 zres.2
        (by rw [hE])).1 grid (by rw [hB, hb])
      simpa using hc.1
  · unfold variable_chunks extract_zarr_variable_encoding determine_zarr_chunks at hok
    rw [he, hb] at hok
    dsimp only at hok
    by_cases hU : grid.all axisUniformOk
    · rw [if_pos hU] at hok
      dsimp only at hok
      cases hE : _extract_zarray (encVar k dvar) ⟨dvar.encoding.compressor,
          dvar.encoding.filters, some (grid.map (fun c => c.headD 0))⟩
          (encVar k dvar).dtype with
      | error e => rw [hE] at hok; exact absurd hok (by simp)
      | ok zres =>
        rw [hE] at hok
        simp only [Except.ok.injEq] at hok
        subst hok
        have hc := (extract_zarray_ok_chunks _ _ _ zres.1 zres.2
          (by rw [hE])).1 grid (by rw [hB, hb])
        simpa using hc.1
    · rw [if_neg hU] at hok
      exact absurd hok (by simp)
  · unfold variable_chunks at hok
    cases hEnc : extract_zarr_variable_encoding dvar with
    | error e => rw [hEnc] at hok; exact absurd hok (by simp)
    | ok enc =>
      rw [hEnc] at hok
      dsimp only at hok
      cases hE : _extract_zarray (encVar k dvar) enc (encVar k dvar).dtype with
      | error e => rw [hE] at hok; exact absurd hok (by simp)
      | ok zres =>
        rw [hE] at hok
        simp only [Except.ok.injEq] at hok
        subst hok
        have hc := (extract_zarray_ok_chunks _ _ _ zres.1 zres.2
          (by rw [hE])).2 (by rw [hB, hb])
        rw [hc, hS]

/-- Concrete variable for the C7 witness: chunked backing, no explicit
encoding chunks — the descriptor carries the actual storage chunk size. -/
def c7db : XVar :=
  { dims := ["x"], shape := [10], attrs := []
    encoding := ⟨none, none, none⟩, dtype := ⟨'i', "<i8", false⟩
    backing := .dask [[4, 4, 2]] }

/-- Witness for C7: the chunked, no-explicit-chunks case at a concrete
input resolves to the first chunk of the real grid. -/
theorem C7_witness :
    ([4] : List Nat) = [[4, 4, 2]].map (fun c => List.headD c 0) :=
  (C7_variable_chunks (fun _ v => v) "x" c7db rfl rfl).2.1 [[4, 4, 2]] [4] rfl rfl rfl

/-! ### Dict lemmas -/

theorem dget?_dsetItem_self (d : List (String × α)) (k : String) (v : α) :
    dget? (dsetItem d k v) k = some v := by
  induction d with
  | nil => simp [dsetItem, dget?]
  | cons kv rest ih =>
    obtain ⟨k₁, v₁⟩ := kv
    by_cases h : k₁ = k
    · simp [dsetItem, h, dget?]
    · simp [dsetItem, h, dget?, ih]

theorem dget?_dsetItem_ne (d : List (String × α)) (k k₂ : String) (v : α)
    (h : k₂ ≠ k) : dget? (dsetItem d k v) k₂ = dget? d k₂ := by
  induction d with
  | nil => simp [dsetItem, dget?, Ne.symm h]
  | cons kv rest ih =>
    obtain ⟨k₁, v₁⟩ := kv
    by_cases h₁ : k₁ = k
    · subst h₁
      simp [dsetItem, dget?, Ne.symm h]
    · simp [dsetItem, h₁, dget?, ih]

/-! ### The lexicographic string order: totality and transitivity -/

theorem charListLe_total : ∀ as bs : List Char,
    (charListLe as bs || charListLe bs as) = true := by
  intro as
  induction as with
  | nil => intro bs; simp [charListLe]
  | cons a as ih =>
    intro bs
    cases bs with
    | nil => simp [charListLe]
    | cons b bs =>
      by_cases h₁ : a.toNat < b.toNat
      · simp [charListLe, h₁]
      · by_cases h₂ : b.toNat < a.toNat
        · simp [charListLe, h₁, h₂]
        · simpa [charListLe, h₁, h₂] using ih bs

theorem charListLe_trans : ∀ as bs cs : List Char,
    charListLe as bs = true → charListLe bs cs = true →
    charListLe as cs = true := by
  intro as
  induction as with
  | nil => intro bs cs _ _; simp [charListLe]
  | cons a as ih =>
    intro bs cs h₁ h₂
    cases bs with
    | nil => simp [charListLe] at h₁
    | cons b bs =>
      cases cs with
      | nil => simp [charListLe] at h₂
      | cons c cs =>
        simp only [charListLe] at h₁ h₂ ⊢
        by_cases hab : a.toNat < b.toNat
        · by_cases hbc : b.toNat < c.toNat
          · rw [if_pos (by omega)]
          · by_cases hcb : c.toNat < b.toNat
            · rw [if_neg hbc, if_pos hcb] at h₂
              exact absurd h₂ (by simp)
            · rw [if_pos (by omega)]
        · by_cases hba : b.toNat < a.toNat
          · rw [if_neg hab, if_pos hba] at h₁
            exact absurd h₁ (by simp)
          · rw [if_neg hab, if_neg hba] at h₁
            by_cases hbc : b.toNat < c.toNat
            · rw [if_pos (by omega)]
            · by_cases hcb : c.toNat < b.toNat
              · rw [if_neg hbc, if_pos hcb] at h₂
                exact absurd h₂ (by simp)
              · rw [if_neg hbc, if_neg hcb] at h₂
                rw [if_neg (by omega), if_neg (by omega)]
                exact ih bs cs h₁ h₂

theorem pyStrLe_total (a b : String) : (pyStrLe a b || pyStrLe b a) = true :=
  charListLe_total a.data b.data

theorem pyStrLe_trans (a b c : String) (h₁ : pyStrLe a b = true)
    (h₂ : pyStrLe b c = true) : pyStrLe a c = true :=
  charListLe_trans a.data b.data c.data h₁ h₂

/-! ### Sorting lemmas -/

theorem mem_insertSorted (x s : String) (l : List String) :
    s ∈ insertSorted x l ↔ s = x ∨ s ∈ l := by
  induction l with
  | nil => simp [insertSorted]
  | cons y ys ih =>
    by_cases h : pyStrLe x y = true
    · simp [insertSorted, h]
    · simp only [insertSorted, if_neg h, List.mem_cons, ih]
      tauto

theorem pairwise_insertSorted (x : String) (l : List String)
    (hl : List.Pairwise (fun a b => pyStrLe a b = true) l) :
    List.Pairwise (fun a b => pyStrLe a b = true) (insertSorted x l) := by
  induction l with
  | nil => simp [insertSorted]
  | cons y ys ih =>
    rw [List.pairwise_cons] at hl
    obtain ⟨hy, hys⟩ := hl
    by_cases h : pyStrLe x y = true
    · simp only [insertSorted, if_pos h]
      rw [List.pairwise_cons]
      refine ⟨fun b hb => ?_, ?_⟩
      · rcases List.mem_cons.mp hb with rfl | hb₂
        · exact h
        · exact pyStrLe_trans x y b h (hy b hb₂)
      · rw [List.pairwise_cons]
        exact ⟨hy, hys⟩
    · simp only [insertSorted, if_neg h]
      rw [List.pairwise_cons]
      refine ⟨fun b hb => ?_, ih hys⟩
      rcases (mem_insertSorted x b ys).mp hb with rfl | hb₂
      · have ht := pyStrLe_total b y
        rw [Bool.or_eq_true] at ht
        rcases ht with h₁ | h₂
        · exact absurd h₁ h
        · exact h₂
      · exact hy b hb₂

theorem mem_sortStrings (l : List String) (s : String) :
    s ∈ sortStrings l ↔ s ∈ l := by
  induction l with
  | nil => simp [sortStrings]
  | cons x xs ih => simp [sortStrings, mem_insertSorted, ih]

theorem pairwise_sortStrings (l : List String) :
    List.Pairwise (fun a b => pyStrLe a b = true) (sortStrings l) := by
  induction l with
  | nil => simp [sortStrings]
  | cons x xs ih => exact pairwise_insertSorted x _ ih

theorem mem_sortedStrings (l : List String) (s : String) :
    s ∈ sortedStrings l ↔ s ∈ l := by
  unfold sortedStrings
  rw [mem_sortStrings, List.mem_dedup]

/-! ### C8: the coordinates attribute -/

/-- Claim C8: the `coordinates` attribute is attached exactly when there
are non-dimension coordinates and the variable is not itself one of them;
its value is the space-join of a lexicographically sorted list holding
exactly the non-dimension coordinate names; otherwise the attribute
document is returned unchanged. -/
theorem C8_extract_dataarray_coords (da : DAView) (zattrs : List (String × PyVal)) :
    (0 < (nondimCoords da).length →
      da.name.elim true (fun n => !(nondimCoords da).contains n) = true →
      _extract_dataarray_coords da zattrs =
        dsetItem zattrs "coordinates"
          (.pstr (String.intercalate " " (sortedStrings (nondimCoords da))))
      ∧ dget? (_extract_dataarray_coords da zattrs) "coordinates" =
          some (.pstr (String.intercalate " " (sortedStrings (nondimCoords da))))
      ∧ List.Pairwise (fun a b => pyStrLe a b = true) (sortedStrings (nondimCoords da))
      ∧ (∀ s, s ∈ sortedStrings (nondimCoords da) ↔ s ∈ da.coords ∧ ¬ s ∈ da.dims))
    ∧ ((nondimCoords da).length = 0 ∨
        da.name.elim true (fun n => !(nondimCoords da).contains n) = false →
        _extract_dataarray_coords da zattrs = zattrs) := by
  constructor
  · intro hne hname
    have hcoords : da.coords.isEmpty = false := by
      cases hc : da.coords with
      | nil =>
        rw [show nondimCoords da = [] by simp [nondimCoords, hc]] at hne
        exact absurd hne (by simp)
      | cons c cs => rfl
    have heq : _extract_dataarray_coords da zattrs =
        dsetItem zattrs "coordinates"
          (.pstr (String.intercalate " " (sortedStrings (nondimCoords da)))) := by
      unfold _extract_dataarray_coords
      rw [if_neg (by simp [hcoords])]
      dsimp only
      split
      · rfl
      · rename_i hcond
        exact absurd ((Bool.and_eq_true _ _).mpr ⟨decide_eq_true hne, hname⟩) hcond
    refine ⟨heq, ?_, pairwise_sortStrings _, fun s => ?_⟩
    · rw [heq, dget?_dsetItem_self]
    · rw [mem_sortedStrings]
      simp [nondimCoords]
  · intro h
    unfold _extract_dataarray_coords
    by_cases hc : da.coords.isEmpty = true
    · rw [if_pos hc]
    · rw [if_neg hc]
      dsimp only
      split
      · rename_i hcond
        rw [Bool.and_eq_true] at hcond
        obtain ⟨h₁, h₂⟩ := hcond
        rcases h with h | h
        · rw [decide_eq_true_eq] at h₁
          omega
        · rw [h] at h₂
          exact absurd h₂ (by simp)
      · rfl

/-- Witness for C8: a concrete variable with two non-dimension
coordinates receives the sorted, space-joined attribute. -/
theorem C8_witness :
    _extract_dataarray_coords ⟨some "temp", ["x"], ["x", "lon", "lat"]⟩ [] =
      dsetItem [] "coordinates"
        (.pstr (String.intercalate " " (sortedStrings (nondimCoords
          ⟨some "temp", ["x"], ["x", "lon", "lat"]⟩)))) :=
  ((C8_extract_dataarray_coords ⟨some "temp", ["x"], ["x", "lon", "lat"]⟩ []).1
    (by decide) (by decide)).1

/-! ### Store-key disjointness -/

theorem string_append_right_cancel (a b s : String) (h : a ++ s = b ++ s) :
    a = b := by
  have hd : a.data ++ s.data = b.data ++ s.data := by
    rw [← String.data_append, ← String.data_append, h]
  exact String.ext (List.append_cancel_right hd)

theorem varArrayKey_inj (a b : String) (h : varArrayKey a = varArrayKey b) :
    a = b := by
  unfold varArrayKey at h
  exact string_append_right_cancel a b "/"
    (string_append_right_cancel _ _ array_meta_key h)

theorem varAttrsKey_inj (a b : String) (h : varAttrsKey a = varAttrsKey b) :
    a = b := by
  unfold varAttrsKey at h
  exact string_append_right_cancel a b "/"
    (string_append_right_cancel _ _ attrs_key h)

theorem varAttrsKey_ne_varArrayKey (a b : String) :
    varAttrsKey a ≠ varArrayKey b := by
  intro h
  unfold varAttrsKey varArrayKey at h
  have hd : (a ++ "/").data ++ attrs_key.data = (b ++ "/").data ++ array_meta_key.data := by
    rw [← String.data_append, ← String.data_append, h]
  have hlen : attrs_key.data.length = array_meta_key.data.length := by decide
  have := (List.append_inj' hd hlen).2
  exact absurd this (by decide)

theorem varAttrsKey_length (a : String) : (varAttrsKey a).length = a.length + 8 := by
  unfold varAttrsKey
  rw [String.length_append, String.length_append]
  rw [show ("/" : String).length = 1 from rfl, show attrs_key.length = 7 from rfl]

theorem varArrayKey_length (a : String) : (varArrayKey a).length = a.length + 8 := by
  unfold varArrayKey
  rw [String.length_append, String.length_append]
  rw [show ("/" : String).length = 1 from rfl, show array_meta_key.length = 7 from rfl]

theorem varAttrsKey_ne_fixed (a : String) :
    varAttrsKey a ≠ group_meta_key ∧ varAttrsKey a ≠ attrs_key := by
  have hl := varAttrsKey_length a
  constructor
  · intro h
    rw [h, show group_meta_key.length = 7 from rfl] at hl
    omega
  · intro h
    rw [h, show attrs_key.length = 7 from rfl] at hl
    omega

theorem varArrayKey_ne_fixed (a : String) :
    varArrayKey a ≠ group_meta_key ∧ varArrayKey a ≠ attrs_key := by
  have hl := varArrayKey_length a
  constructor
  · intro h
    rw [h, show group_meta_key.length = 7 from rfl] at hl
    omega
  · intro h
    rw [h, show attrs_key.length = 7 from rfl] at hl
    omega

/-! ### C10: `jsonify_zmetadata` leaves its input untouched -/

/-- The compressor slot of the JSON projection: a live codec replaced by
its plain-data config, `None` kept. -/
def codecReplaced (a b : Option CodecVal) : Prop :=
  (a = none ∧ b = none) ∨
  ∃ c, a = some (.codec c) ∧ b = some (.cfg c.config)

/-- The filters slot of the JSON projection: a list of live codecs
replaced element-wise by their configs, `None` kept. -/
def filtersReplaced (a b : Option (List CodecVal)) : Prop :=
  (a = none ∧ b = none) ∨
  ∃ cs : List MCodec, a = some (cs.map CodecVal.codec) ∧
    b = some (cs.map (fun c => CodecVal.cfg c.config))

theorem filtersConfigs_ok (l l₂ : List CodecVal)
    (h : filtersConfigs l = some l₂) :
    ∃ cs : List MCodec, l = cs.map CodecVal.codec
      ∧ l₂ = cs.map (fun c => CodecVal.cfg c.config) := by
  induction l generalizing l₂ with
  | nil =>
    simp only [filtersConfigs, Option.some.injEq] at h
    exact ⟨[], rfl, by rw [← h]; rfl⟩
  | cons cv rest ih =>
    cases cv with
    | cfg conf => simp [filtersConfigs] at h
    | codec c =>
      simp only [filtersConfigs, Option.map_eq_some'] at h
      obtain ⟨l₃, hl₃, hcons⟩ := h
      obtain ⟨cs, rfl, rfl⟩ := ih l₃ hl₃
      exact ⟨c :: cs, rfl, by rw [List.map_cons, ← hcons]⟩

/-- On success, `jsonify_zarray` replaces exactly the codec slots and
keeps every other field. -/
theorem jsonify_zarray_ok (za za₂ : ZArray) (h : jsonify_zarray za = .ok za₂) :
    codecReplaced za.compressor za₂.compressor
    ∧ filtersReplaced za.filters za₂.filters
    ∧ za₂.chunks = za.chunks ∧ za₂.dtype = za.dtype
    ∧ za₂.fill_value = za.fill_value ∧ za₂.order = za.order
    ∧ za₂.shape = za.shape ∧ za₂.zarr_format = za.zarr_format := by
  unfold jsonify_zarray at h
  cases hc : za.compressor with
  | none =>
    rw [hc] at h
    dsimp only at h
    cases hf : za.filters with
    | none =>
      rw [hf] at h
      dsimp only at h
      simp only [Except.ok.injEq] at h
      subst h
      exact ⟨Or.inl ⟨rfl, rfl⟩, Or.inl ⟨rfl, rfl⟩, rfl, rfl, rfl, rfl, rfl, rfl⟩
    | some l =>
      rw [hf] at h
      dsimp only at h
      cases hm : filtersConfigs l with
      | none => rw [hm] at h; exact absurd h (by simp)
      | some l₂ =>
        rw [hm] at h
        dsimp only at h
        simp only [Except.ok.injEq] at h
        subst h
        obtain ⟨cs, hcs₁, hcs₂⟩ := filtersConfigs_ok l l₂ hm
        exact ⟨Or.inl ⟨rfl, rfl⟩, Or.inr ⟨cs, by rw [hcs₁], by rw [hcs₂]⟩,
          rfl, rfl, rfl, rfl, rfl, rfl⟩
  | some cv =>
    cases cv with
    | cfg conf => rw [hc] at h; exact absurd h (by simp)
    | codec c =>
      rw [hc] at h
      dsimp only at h
      cases hf : za.filters with
      | none =>
        rw [hf] at h
        dsimp only at h
        simp only [Except.ok.injEq] at h
        subst h
        exact ⟨Or.inr ⟨c, rfl, rfl⟩, Or.inl ⟨rfl, rfl⟩, rfl, rfl, rfl, rfl, rfl, rfl⟩
      | some l =>
        rw [hf] at h
        dsimp only at h
        cases hm : filtersConfigs l with
        | none => rw [hm] at h; exact absurd h (by simp)
        | some l₂ =>
          rw [hm] at h
          dsimp only at h
          simp only [Except.ok.injEq] at h
          subst h
          obtain ⟨cs, hcs₁, hcs₂⟩ := filtersConfigs_ok l l₂ hm
          exact ⟨Or.inr ⟨c, rfl, rfl⟩, Or.inr ⟨cs, by rw [hcs₁], by rw [hcs₂]⟩,
            rfl, rfl, rfl, rfl, rfl, rfl⟩

/-- What one pass of the jsonify loop does to the copied document. -/
theorem jsonify_loop_ok (ks : List String) (md md₂ : List (String × MetaDoc))
    (hnd : ks.Nodup) (h : jsonify_loop ks md = .ok md₂) :
    (∀ key, ¬ key ∈ ks.map varArrayKey → dget? md₂ key = dget? md key)
    ∧ (∀ k, k ∈ ks → ∃ za za₂,
        dget? md (varArrayKey k) = some (.arrayDoc za)
        ∧ jsonify_zarray za = .ok za₂
        ∧ dget? md₂ (varArrayKey k) = some (.arrayDoc za₂)) := by
  induction ks generalizing md with
  | nil =>
    simp only [jsonify_loop, Except.ok.injEq] at h
    subst h
    exact ⟨fun _ _ => rfl, by simp⟩
  | cons k rest ih =>
    rw [List.nodup_cons] at hnd
    obtain ⟨hk, hnd₂⟩ := hnd
    unfold jsonify_loop at h
    cases hG : dget? md (varArrayKey k) with
    | none => rw [hG] at h; exact absurd h (by simp)
    | some doc =>
      rw [hG] at h
      cases doc with
      | group n => exact absurd h (by simp)
      | attrsDoc a => exact absurd h (by simp)
      | arrayDoc za =>
        dsimp only at h
        cases hJ : jsonify_zarray za with
        | error e => rw [hJ] at h; exact absurd h (by simp)
        | ok za₂ =>
          rw [hJ] at h
          dsimp only at h
          obtain ⟨hrest₁, hrest₂⟩ :=
            ih (dsetItem md (varArrayKey k) (.arrayDoc za₂)) hnd₂ h
          constructor
          · intro key hkey
            rw [List.map_cons, List.mem_cons] at hkey
            push_neg at hkey
            obtain ⟨hkey₁, hkey₂⟩ := hkey
            rw [hrest₁ key hkey₂, dget?_dsetItem_ne _ _ _ _ hkey₁]
          · intro k₂ hk₂
            rcases List.mem_cons.mp hk₂ with rfl | hk₂'
            · refine ⟨za, za₂, hG, hJ, ?_⟩
              have hnotin : ¬ varArrayKey k₂ ∈ rest.map varArrayKey := by
                intro hmem
                obtain ⟨k₃, hk₃, hEq⟩ := List.mem_map.mp hmem
                exact hk (varArrayKey_inj _ _ hEq.symm ▸ hk₃)
              rw [hrest₁ (varArrayKey k₂) hnotin, dget?_dsetItem_self]
            · obtain ⟨za', za₂', hg', hj', hfin⟩ := hrest₂ k₂ hk₂'
              refine ⟨za', za₂', ?_, hj', hfin⟩
              have hne : varArrayKey k₂ ≠ varArrayKey k := by
                intro hEq
                exact hk (varArrayKey_inj _ _ hEq ▸ hk₂')
              rw [dget?_dsetItem_ne _ _ _ _ hne] at hg'
              exact hg'

/-- Claim C10: `jsonify_zmetadata` never mutates the document passed to
it — the caller's document is returned unchanged — and on success only
the returned copy has its compressor and filter codec objects replaced by
their plain-data configurations, all other fields and entries kept. -/
theorem C10_jsonify_zmetadata (ds : Dataset) (zm : ZMeta)
    (hnd : (dkeys ds.vars).Nodup) :
    (jsonify_zmetadata ds zm).1 = zm
    ∧ ∀ out, (jsonify_zmetadata ds zm).2 = .ok out →
        out.zarr_consolidated_format = zm.zarr_consolidated_format
        ∧ (∀ key, ¬ key ∈ (dkeys ds.vars).map varArrayKey →
            dget? out.metadata key = dget? zm.metadata key)
        ∧ (∀ k, k ∈ dkeys ds.vars → ∃ za za₂,
            dget? zm.metadata (varArrayKey k) = some (.arrayDoc za)
            ∧ dget? out.metadata (varArrayKey k) = some (.arrayDoc za₂)
            ∧ codecReplaced za.compressor za₂.compressor
            ∧ filtersReplaced za.filters za₂.filters
            ∧ za₂.chunks = za.chunks ∧ za₂.dtype = za.dtype
            ∧ za₂.fill_value = za.fill_value ∧ za₂.order = za.order
            ∧ za₂.shape = za.shape ∧ za₂.zarr_format = za.zarr_format) := by
  refine ⟨rfl, fun out hout => ?_⟩
  unfold jsonify_zmetadata at hout
  dsimp only at hout
  cases hL : jsonify_loop (dkeys ds.vars) zm.metadata with
  | error e => rw [hL] at hout; simp [Except.map] at hout
  | ok md₂ =>
    rw [hL] at hout
    simp only [Except.map, Except.ok.injEq] at hout
    subst hout
    obtain ⟨h₁, h₂⟩ := jsonify_loop_ok (dkeys ds.vars) zm.metadata md₂ hnd hL
    refine ⟨rfl, h₁, fun k hkm => ?_⟩
    obtain ⟨za, za₂, hg, hj, hfin⟩ := h₂ k hkm
    obtain ⟨hc, hf, hrest⟩ := jsonify_zarray_ok za za₂ hj
    exact ⟨za, za₂, hg, hfin, hc, hf, hrest⟩

/-- Concrete dataset and document for the C10 witness. -/
def c10ds : Dataset :=
  { attrs := []
    vars := [("x", { dims := ["x"], shape := [2], attrs := []
                     encoding := ⟨none, none, none⟩, dtype := ⟨'i', "<i8", false⟩
                     backing := .numpy })]
    coordsOf := fun _ => [] }

def c10zm : ZMeta :=
  { zarr_consolidated_format := 1
    metadata := [(varArrayKey "x", .arrayDoc
      { compressor := some (.codec ⟨"zlib", [("id", .pstr "zlib")]⟩)
        filters := none, chunks := [2], dtype := "<i8", fill_value := .pnone
        order := "C", shape := [2], zarr_format := 2 })] }

/-- Witness for C10: the caller's document comes back unchanged. -/
theorem C10_witness : (jsonify_zmetadata c10ds c10zm).1 = c10zm :=
  (C10_jsonify_zmetadata c10ds c10zm (by decide)).1

/-! ### C2: idempotence of the metadata build -/

/-- The variable loop leaves the dataset state untouched: every iteration's
`_FillValue` pop lands on the freshly encoded local variable. -/
theorem create_zmetadata_vars_state (encVar : String → XVar → XVar) (ds : Dataset) :
    ∀ (vs : List (String × XVar)) (acc : List (String × MetaDoc)) (st : Dataset),
    (create_zmetadata_vars encVar ds vs acc st).2 = st := by
  intro vs
  induction vs with
  | nil => intro acc st; rfl
  | cons kv rest ih =>
    intro acc st
    obtain ⟨k, dvar⟩ := kv
    unfold create_zmetadata_vars
    cases h : zmetaVarEntries encVar ds acc k dvar with
    | error e => rfl
    | ok r => exact ih r.1 st

/-- Claim C2: `create_zmetadata` leaves the dataset it is handed unchanged
(the `_FillValue` pops land on per-call encoded locals), so a second build
on the same unmodified dataset yields output identical to the first. -/
theorem C2_create_zmetadata_idempotent (encVar : String → XVar → XVar)
    (ds : Dataset) :
    (create_zmetadata_state encVar ds).2 = ds
    ∧ (create_zmetadata_state encVar ((create_zmetadata_state encVar ds).2)).1
        = (create_zmetadata_state encVar ds).1 := by
  have h₂ : (create_zmetadata_state encVar ds).2 = ds :=
    create_zmetadata_vars_state encVar ds ds.vars _ ds
  exact ⟨h₂, by rw [h₂]⟩

/-! ### Dict construction lemmas for C1 -/

theorem dsetItem_of_not_mem (d : List (String × α)) (k : String) (v : α)
    (h : ¬ k ∈ dkeys d) : dsetItem d k v = d ++ [(k, v)] := by
  induction d with
  | nil => rfl
  | cons kv rest ih =>
    obtain ⟨k₁, v₁⟩ := kv
    rw [dkeys, List.map_cons, List.mem_cons] at h
    push_neg at h
    have hne : ¬ (k₁ = k) := fun hh => h.1 hh.symm
    simp only [dsetItem, if_neg hne, List.cons_append]
    exact congrArg (List.cons (k₁, v₁)) (ih h.2)

theorem dkeys_append (d₁ d₂ : List (String × α)) :
    dkeys (d₁ ++ d₂) = dkeys d₁ ++ dkeys d₂ := by
  simp [dkeys]

theorem dkeys_map_value (items : List (String × PyVal)) (f : PyVal → PyVal) :
    dkeys (items.map (fun kv => (kv.1, f kv.2))) = dkeys items := by
  induction items with
  | nil => rfl
  | cons kv rest ih => simp [dkeys]

theorem foldl_dsetItem_fresh (f : PyVal → PyVal) :
    ∀ (items init : List (String × PyVal)),
    (∀ kv ∈ items, ¬ kv.1 ∈ dkeys init) → (dkeys items).Nodup →
    items.foldl (fun d kv => dsetItem d kv.1 (f kv.2)) init
      = init ++ items.map (fun kv => (kv.1, f kv.2)) := by
  intro items
  induction items with
  | nil => intro init _ _; simp
  | cons kv rest ih =>
    intro init hfresh hnd
    obtain ⟨k, v⟩ := kv
    rw [dkeys, List.map_cons, List.nodup_cons] at hnd
    obtain ⟨hk, hnd₂⟩ := hnd
    rw [List.foldl_cons]
    rw [dsetItem_of_not_mem init k (f v) (hfresh (k, v) (List.mem_cons_self _ _))]
    rw [ih (init ++ [(k, f v)]) ?_ hnd₂]
    · rw [List.append_assoc]
      rfl
    · intro kv₂ hkv₂
      rw [dkeys_append, List.mem_append]
      push_neg
      refine ⟨hfresh kv₂ (List.mem_cons_of_mem _ hkv₂), ?_⟩
      simp only [dkeys, List.map_cons, List.map_nil, List.mem_singleton]
      intro hh
      refine hk ?_
      rw [← hh]
      exact List.mem_map.mpr ⟨kv₂, hkv₂, rfl⟩

theorem dpop_eq_filter (k : String) :
    ∀ d : List (String × α), (dkeys d).Nodup →
    (dpop d k).2 = d.filter (fun kv => kv.1 != k) := by
  intro d
  induction d with
  | nil => intro _; rfl
  | cons kv rest ih =>
    intro hnd
    obtain ⟨k₁, v₁⟩ := kv
    rw [dkeys, List.map_cons, List.nodup_cons] at hnd
    obtain ⟨hk₁, hrest⟩ := hnd
    by_cases he : k₁ = k
    · subst he
      have hfilter : List.filter (fun kv => kv.1 != k₁) rest = rest := by
        rw [List.filter_eq_self]
        intro kv₂ hkv₂
        rw [bne_iff_ne]
        intro hh
        refine hk₁ ?_
        rw [← hh]
        exact List.mem_map.mpr ⟨kv₂, hkv₂, rfl⟩
      simp only [dpop, if_pos rfl]
      simp [List.filter_cons, hfilter]
    · have hstep : (dpop ((k₁, v₁) :: rest) k).2 = (k₁, v₁) :: (dpop rest k).2 := by
        simp [dpop, if_neg he]
      rw [hstep, ih hrest, List.filter_cons, if_pos (by simpa using he)]

theorem dget?_isSome_of_mem (d : List (String × α)) (k : String)
    (h : k ∈ dkeys d) : (dget? d k).isSome = true := by
  induction d with
  | nil => simp [dkeys] at h
  | cons kv rest ih =>
    obtain ⟨k₁, v₁⟩ := kv
    by_cases he : k₁ = k
    · simp [dget?, he]
    · rw [dkeys, List.map_cons, List.mem_cons] at h
      rcases h with h | h
      · exact absurd h.symm he
      · simp only [dget?, if_neg he]
        exact ih h

/-- `_extract_dataset_zattrs` in closed form: encode every global
attribute, drop the internal identity attribute. -/
theorem extract_dataset_zattrs_eq (ds : Dataset) (hA : (dkeys ds.attrs).Nodup) :
    _extract_dataset_zattrs ds =
      (ds.attrs.map (fun kv => (kv.1, encode_zarr_attr_value kv.2))).filter
        (fun kv => kv.1 != DATASET_ID_ATTR_KEY) := by
  unfold _extract_dataset_zattrs dictOfItems
  rw [foldl_dsetItem_fresh encode_zarr_attr_value ds.attrs [] (by simp [dkeys]) hA]
  rw [List.nil_append]
  exact dpop_eq_filter DATASET_ID_ATTR_KEY _ (by rw [dkeys_map_value]; exact hA)

/-! ### C1: structure of the consolidated document -/

theorem zmetaVarEntries_ok (encVar : String → XVar → XVar) (ds : Dataset)
    (acc : List (String × MetaDoc)) (k : String) (dvar : XVar)
    (r : List (String × MetaDoc) × XVar)
    (h : zmetaVarEntries encVar ds acc k dvar = .ok r) :
    ∃ d₁ d₂ : MetaDoc,
      r.1 = dsetItem (dsetItem acc (varAttrsKey k) d₁) (varArrayKey k) d₂ := by
  unfold zmetaVarEntries at h
  dsimp only at h
  cases hE : extract_zarr_variable_encoding dvar with
  | error e => rw [hE] at h; exact absurd h (by simp)
  | ok enc =>
    rw [hE] at h
    dsimp only at h
    cases hZ : _extract_zarray (encVar k dvar) enc (encVar k dvar).dtype with
    | error e => rw [hZ] at h; exact absurd h (by simp)
    | ok zres =>
      rw [hZ] at h
      dsimp only at h
      simp only [Except.ok.injEq] at h
      subst h
      exact ⟨_, _, rfl⟩

theorem create_zmetadata_vars_ok (encVar : String → XVar → XVar) (ds : Dataset) :
    ∀ (vs : List (String × XVar)) (acc : List (String × MetaDoc)) (st : Dataset)
      (md : List (String × MetaDoc)),
    (dkeys vs).Nodup →
    (∀ kv ∈ vs, ¬ varAttrsKey kv.1 ∈ dkeys acc ∧ ¬ varArrayKey kv.1 ∈ dkeys acc) →
    (create_zmetadata_vars encVar ds vs acc st).1 = .ok md →
    ∃ entries, md = acc ++ entries
      ∧ dkeys entries = vs.flatMap (fun kv => [varAttrsKey kv.1, varArrayKey kv.1]) := by
  intro vs
  induction vs with
  | nil =>
    intro acc st md _ _ h
    simp only [create_zmetadata_vars, Except.ok.injEq] at h
    subst h
    exact ⟨[], by simp, rfl⟩
  | cons kv rest ih =>
    intro acc st md hnd hfresh h
    obtain ⟨k, dvar⟩ := kv
    rw [dkeys, List.map_cons, List.nodup_cons] at hnd
    obtain ⟨hkrest, hnd₂⟩ := hnd
    unfold create_zmetadata_vars at h
    cases hE : zmetaVarEntries encVar ds acc k dvar with
    | error e => rw [hE] at h; exact absurd h (by simp)
    | ok r =>
      rw [hE] at h
      dsimp only at h
      obtain ⟨d₁, d₂, hr⟩ := zmetaVarEntries_ok encVar ds acc k dvar r hE
      obtain ⟨hfa, hfr⟩ := hfresh (k, dvar) (List.mem_cons_self _ _)
      dsimp only at hfa hfr
      have hfr₂ : ¬ varArrayKey k ∈ dkeys (acc ++ [(varAttrsKey k, d₁)]) := by
        rw [dkeys_append, List.mem_append]
        push_neg
        refine ⟨hfr, ?_⟩
        simp only [dkeys, List.map_cons, List.map_nil, List.mem_singleton]
        exact Ne.symm (varAttrsKey_ne_varArrayKey k k)
      have hacc₂ : r.1 = acc ++ [(varAttrsKey k, d₁), (varArrayKey k, d₂)] := by
        rw [hr, dsetItem_of_not_mem acc _ _ hfa, dsetItem_of_not_mem _ _ _ hfr₂,
          List.append_assoc]
        rfl
      have hfresh₂ : ∀ kv₂ ∈ rest, ¬ varAttrsKey kv₂.1 ∈ dkeys r.1
          ∧ ¬ varArrayKey kv₂.1 ∈ dkeys r.1 := by
        intro kv₂ hkv₂
        have hk₂ : kv₂.1 ≠ k := by
          intro hh
          refine hkrest ?_
          rw [← hh]
          exact List.mem_map.mpr ⟨kv₂, hkv₂, rfl⟩
        obtain ⟨ha, hb⟩ := hfresh kv₂ (List.mem_cons_of_mem _ hkv₂)
        rw [hacc₂]
        constructor
        · rw [dkeys_append, List.mem_append]
          push_neg
          refine ⟨ha, ?_⟩
          simp only [dkeys, List.map_cons, List.map_nil, List.mem_cons,
            List.mem_singleton, List.not_mem_nil, or_false, not_or]
          exact ⟨fun hh => hk₂ (varAttrsKey_inj _ _ hh),
            varAttrsKey_ne_varArrayKey kv₂.1 k⟩
        · rw [dkeys_append, List.mem_append]
          push_neg
          refine ⟨hb, ?_⟩
          simp only [dkeys, List.map_cons, List.map_nil, List.mem_cons,
            List.mem_singleton, List.not_mem_nil, or_false, not_or]
          exact ⟨Ne.symm (varAttrsKey_ne_varArrayKey k kv₂.1),
            fun hh => hk₂ (varArrayKey_inj _ _ hh)⟩
      obtain ⟨entries₂, hmd, hkeys⟩ := ih r.1 st md hnd₂ hfresh₂ h
      refine ⟨[(varAttrsKey k, d₁), (varArrayKey k, d₂)] ++ entries₂, ?_, ?_⟩
      · rw [hmd, hacc₂, List.append_assoc]
      · rw [dkeys_append, hkeys]
        rfl

/-- Claim C1: the consolidated document has top level
`zarr_consolidated_format = 1` plus a metadata mapping holding `.zgroup`
(the v2 group descriptor), `.zattrs` (the encoded global attributes with
the internal identity attribute removed), and, for every variable in
declaration order, a `.zattrs` and a `.zarray` entry. -/
theorem C1_create_zmetadata_structure (encVar : String → XVar → XVar)
    (ds : Dataset) (m : ZMeta)
    (hA : (dkeys ds.attrs).Nodup) (hV : (dkeys ds.vars).Nodup)
    (hok : create_zmetadata encVar ds = .ok m) :
    m.zarr_consolidated_format = 1
    ∧ dget? m.metadata group_meta_key = some (.group 2)
    ∧ dget? m.metadata attrs_key = some (.attrsDoc
        ((ds.attrs.map (fun kv => (kv.1, encode_zarr_attr_value kv.2))).filter
          (fun kv => kv.1 != DATASET_ID_ATTR_KEY)))
    ∧ dkeys m.metadata = group_meta_key :: attrs_key ::
        ds.vars.flatMap (fun kv => [varAttrsKey kv.1, varArrayKey kv.1])
    ∧ ∀ kv ∈ ds.vars, (dget? m.metadata (varAttrsKey kv.1)).isSome = true
        ∧ (dget? m.metadata (varArrayKey kv.1)).isSome = true := by
  unfold create_zmetadata create_zmetadata_state at hok
  dsimp only at hok
  cases hL : (create_zmetadata_vars encVar ds ds.vars
      (dsetItem (dsetItem [] group_meta_key (.group ZARR_FORMAT)) attrs_key
        (.attrsDoc (_extract_dataset_zattrs ds))) ds).1 with
  | error e => rw [hL] at hok; simp [Except.map] at hok
  | ok md =>
    rw [hL] at hok
    simp only [Except.map, Except.ok.injEq] at hok
    subst hok
    have hmeta₁ : dsetItem (dsetItem ([] : List (String × MetaDoc)) group_meta_key
        (.group ZARR_FORMAT)) attrs_key (.attrsDoc (_extract_dataset_zattrs ds))
        = [(group_meta_key, .group ZARR_FORMAT),
           (attrs_key, .attrsDoc (_extract_dataset_zattrs ds))] := rfl
    rw [hmeta₁] at hL
    have hfreshinit : ∀ kv ∈ ds.vars,
        ¬ varAttrsKey kv.1 ∈ dkeys ([(group_meta_key, MetaDoc.group ZARR_FORMAT),
          (attrs_key, MetaDoc.attrsDoc (_extract_dataset_zattrs ds))])
        ∧ ¬ varArrayKey kv.1 ∈ dkeys ([(group_meta_key, MetaDoc.group ZARR_FORMAT),
          (attrs_key, MetaDoc.attrsDoc (_extract_dataset_zattrs ds))]) := by
      intro kv hkv
      constructor
      · simp only [dkeys, List.map_cons, List.map_nil, List.mem_cons,
          List.mem_singleton, List.not_mem_nil, or_false, not_or]
        exact ⟨(varAttrsKey_ne_fixed kv.1).1, (varAttrsKey_ne_fixed kv.1).2⟩
      · simp only [dkeys, List.map_cons, List.map_nil, List.mem_cons,
          List.mem_singleton, List.not_mem_nil, or_false, not_or]
        exact ⟨(varArrayKey_ne_fixed kv.1).1, (varArrayKey_ne_fixed kv.1).2⟩
    obtain ⟨entries, hmd, hkeys⟩ :=
      create_zmetadata_vars_ok encVar ds ds.vars _ ds md hV hfreshinit hL
    · subst hmd
      refine ⟨rfl, ?_, ?_, ?_, ?_⟩
      · simp [dget?, ZARR_FORMAT]
      · rw [show ((([(group_meta_key, MetaDoc.group ZARR_FORMAT),
            (attrs_key, MetaDoc.attrsDoc (_extract_dataset_zattrs ds))] ++ entries))
            : List (String × MetaDoc)) =
            (group_meta_key, MetaDoc.group ZARR_FORMAT) ::
            (attrs_key, MetaDoc.attrsDoc (_extract_dataset_zattrs ds)) :: entries
          from rfl]
        rw [show dget? ((group_meta_key, MetaDoc.group ZARR_FORMAT) ::
            (attrs_key, MetaDoc.attrsDoc (_extract_dataset_zattrs ds)) :: entries)
            attrs_key = some (MetaDoc.attrsDoc (_extract_dataset_zattrs ds)) from by
          simp [dget?, show ¬ (group_meta_key = attrs_key) by decide]]
        rw [extract_dataset_zattrs_eq ds hA]
      · rw [dkeys_append, hkeys]
        rfl
      · intro kv hkv
        constructor
        · apply dget?_isSome_of_mem
          rw [dkeys_append, hkeys, List.mem_append]
          right
          rw [List.mem_flatMap]
          exact ⟨kv, hkv, by simp⟩
        · apply dget?_isSome_of_mem
          rw [dkeys_append, hkeys, List.mem_append]
          right
          rw [List.mem_flatMap]
          exact ⟨kv, hkv, by simp⟩

/-- Concrete dataset for the C1 witness. -/
def c1ds : Dataset :=
  { attrs := [("title", .pstr "t"), (DATASET_ID_ATTR_KEY, .pstr "d1")]
    vars := [("x", { dims := ["x"], shape := [2], attrs := [("units", .pstr "m")]
                     encoding := ⟨none, none, none⟩, dtype := ⟨'i', "<i8", false⟩
                     backing := .numpy })]
    coordsOf := fun _ => [] }

/-- The document the build produces on the C1 witness dataset. -/
def c1m : ZMeta :=
  match create_zmetadata (fun _ v => v) c1ds with
  | .ok m => m
  | .error _ => { zarr_consolidated_format := 0, metadata := [] }

/-- Witness for C1: the build succeeds on a concrete dataset and carries
the claimed top-level marker. -/
theorem C1_witness : c1m.zarr_consolidated_format = 1 :=
  (C1_create_zmetadata_structure (fun _ v => v) c1ds c1m
    (by decide) (by decide) rfl).1

end Xpublish
